import Mathlib

/-!
Verification of the PhishGuard POC heuristic analysis engine and the
feedback-driven user scoring model, as implemented in `backend_app.py`.

The code is shallowly embedded: Python floats are modelled as exact
rationals (`ℚ`), the network (via `requests`) and the public-suffix parser
(`tldextract`) are modelled as an explicit environment of abstract probe
functions (`Env`), and the SQLite store is modelled as explicit state
(`St`) with a step function per API endpoint.  Python string operations
are modelled on the underlying character lists (for the ASCII inputs used
here, Python's `str.lower` coincides with mapping `Char.toLower`).
-/

set_option maxHeartbeats 1000000

namespace PhishGuard

/-- Model of the external collaborators of `analyze_payload`
(`backend_app.py` lines 100-198): `tldextract.extract` and the two
`requests.get` probes.
* `tld_domain url` models `tldextract.extract(url).domain` (`""` when absent);
* `tld_registered_domain url` models `tldextract.extract(url).registered_domain`
  (`""` when absent);
* `fetch url` models `requests.get(url, timeout=6, allow_redirects=True)`:
  `some n` is a successful fetch with `n = len(r.history)` redirects,
  `none` is a raised exception;
* `cert_fetch domain` models `requests.get("https://" + domain, timeout=5,
  allow_redirects=True)`: `some code` is a response with status `code`,
  `none` is a raised exception. -/
structure Env where
  tld_domain : String → String
  tld_registered_domain : String → String
  fetch : String → Option Nat
  cert_fetch : String → Option Nat

/-- `SUSPICIOUS_KEYWORDS` from `backend_app.py` lines 87-90. -/
def SUSPICIOUS_KEYWORDS : List String :=
  ["urgent", "verify", "verify your", "login", "password", "update", "confirm",
   "bank", "account", "click", "suspend", "limited", "secure", "authentication"]

/-- `POPULAR_BRANDS` from `backend_app.py` line 92. -/
def POPULAR_BRANDS : List String :=
  ["google", "microsoft", "amazon", "paypal", "apple", "facebook", "aws", "netflix"]

/-- Python whitespace characters matched by `\s` (ASCII range): space, tab,
newline, carriage return, vertical tab (11), form feed (12). -/
def pyWhitespace (c : Char) : Bool :=
  c = ' ' || c = '\t' || c = '\n' || c = '\r' || c = Char.ofNat 11 || c = Char.ofNat 12

/-- A character refused by the character class of the URL regex
`https?://[^\s'\"\)\(<>]+` in `extract_urls_from_text` (line 97):
whitespace, single quote (39), double quote (34), parentheses and angle
brackets. -/
def urlForbidden (c : Char) : Bool :=
  pyWhitespace c || c = Char.ofNat 39 || c = Char.ofNat 34 ||
    c = ')' || c = '(' || c = '<' || c = '>'

/-- A character accepted by the body of the URL regex. -/
def urlAllowedChar (c : Char) : Bool := !urlForbidden c

/-- The scheme alternative `https?://` of the URL regex, tried at the head
of `cs` (greedy: the variant with `s` is preferred).  Returns the length of
the matched scheme. -/
def matchScheme (cs : List Char) : Option Nat :=
  if cs.take 8 = "https://".data then some 8
  else if cs.take 7 = "http://".data then some 7
  else none

/-- `re.findall(r"https?://[^\s'\"\)\(<>]+", text)`: left-to-right scan for
non-overlapping matches; at each position the scheme alternative is tried
and, on success, the greedy (maximal, non-empty) run of allowed body
characters is consumed; scanning resumes after the match. -/
def findall_urls : List Char → List (List Char)
  | [] => []
  | c :: rest =>
    match h : matchScheme (c :: rest) with
    | some k =>
      let after := (c :: rest).drop k
      let body := after.takeWhile urlAllowedChar
      if body.isEmpty then findall_urls rest
      else ((c :: rest).take k ++ body) :: findall_urls (after.drop body.length)
    | none => findall_urls rest
termination_by cs => cs.length
decreasing_by
  · simp only [List.length_cons]; omega
  · have hk : 0 < k := by
      unfold matchScheme at h
      split at h
      · cases h; exact Nat.succ_pos 7
      · split at h
        · cases h; exact Nat.succ_pos 6
        · cases h
    simp only [List.length_drop, List.length_cons]; omega
  · simp only [List.length_cons]; omega

/-- `extract_urls_from_text` (`backend_app.py` lines 94-98).  Python's
`list(set(...))` collapses duplicates in an unspecified order; `List.dedup`
is used as the canonical choice of that order (the claims about this
function depend only on membership and duplicate-freeness). -/
def extract_urls_from_text (text : String) : List String :=
  if text = "" then []
  else (((findall_urls text.data).map fun l => String.mk l).dedup)

/-- `is_https` (`backend_app.py` lines 100-101):
`url.lower().startswith("https://")`, on the character list. -/
def is_https (url : String) : Bool :=
  "https://".data.isPrefixOf (url.data.map Char.toLower)

/-- `re.sub(r"^https?://", "", url)` from `has_ip_hostname` (line 105). -/
def strip_scheme (url : String) : List Char :=
  if "https://".data.isPrefixOf url.data then url.data.drop 8
  else if "http://".data.isPrefixOf url.data then url.data.drop 7
  else url.data

/-- `has_ip_hostname` (`backend_app.py` lines 103-108): the host is the
part before the first `/` after stripping the scheme
(`.split("/")[0]`), and the regex `^\d+\.\d+\.\d+\.\d+$` holds exactly
when the host splits on `.` into exactly four non-empty all-digit groups.
(The `try/except` wrapper cannot fire: none of the operations raise.) -/
def has_ip_hostname (url : String) : Bool :=
  let host := (strip_scheme url).takeWhile (fun c => c ≠ '/')
  let parts := List.splitOn '.' host
  parts.length == 4 && parts.all (fun p => !p.isEmpty && p.all Char.isDigit)

/-- `domain_length` (`backend_app.py` lines 110-112): `len(ext.domain or "")`. -/
def domain_length (env : Env) (url : String) : Nat :=
  (env.tld_domain url).length

/-- `simple_typosquat_check` (`backend_app.py` lines 114-121): the first
brand that occurs as a substring of the domain while the domain is not the
brand itself yields the reason. -/
def simple_typosquat_check (env : Env) (url : String) : Option String :=
  let domain := env.tld_domain url
  (POPULAR_BRANDS.find? fun b =>
      decide (b.data <:+: domain.data) && !(domain == b)).map
    (fun b => "possible typosquat/brand mimicry (" ++ b ++ ")")

/-- `check_ssl_certificate` (`backend_app.py` lines 128-134): `true` iff
the HTTPS GET of the domain succeeds with a status code below 500; an
exception yields `false`. -/
def check_ssl_certificate (env : Env) (domain : String) : Bool :=
  match env.cert_fetch domain with
  | some code => decide (code < 500)
  | none => false

/-- `ext.registered_domain or ext.domain` from `analyze_payload`
(lines 179-180): the empty string is falsy in Python. -/
def probedDomain (env : Env) (url : String) : String :=
  if env.tld_registered_domain url = "" then env.tld_domain url
  else env.tld_registered_domain url

/-- The keyword count of `analyze_payload` (lines 145-146): the number of
entries of `SUSPICIOUS_KEYWORDS` occurring as substrings of the lowercased
message. -/
def kw_count (message : String) : Nat :=
  SUSPICIOUS_KEYWORDS.countP
    (fun k => decide (k.data <:+: message.data.map Char.toLower))

/-- The keyword heuristic of `analyze_payload` (lines 144-149), as the pair
of the reasons it appends and the weight it adds. -/
def kwBlock (message : String) : List String × ℚ :=
  let kc := kw_count message
  if kc ≠ 0 then
    (["suspicious keywords (" ++ toString kc ++ ")"], min (0.2 * (kc : ℚ)) 0.4)
  else ([], 0)

/-- The per-URL loop body of `analyze_payload` (lines 153-184), threading
the accumulated `(reasons, score)` pair through the six rules in source
order: HTTPS, IP literal, domain length, brand mimicry, redirect/fetch,
certificate. -/
def urlStep (env : Env) (acc : List String × ℚ) (url : String) : List String × ℚ :=
  let acc := if !is_https url then
      (acc.1 ++ ["no HTTPS (insecure link)"], acc.2 + 0.20) else acc
  let acc := if has_ip_hostname url then
      (acc.1 ++ ["URL uses raw IP address"], acc.2 + 0.20) else acc
  let dd := domain_length env url
  let acc := if dd ≠ 0 ∧ 25 < dd then
      (acc.1 ++ ["long domain name"], acc.2 + 0.05) else acc
  let acc := match simple_typosquat_check env url with
    | some ts => (acc.1 ++ [ts], acc.2 + 0.15)
    | none => acc
  let acc := match env.fetch url with
    | some redirects =>
      if 3 ≤ redirects then
        (acc.1 ++ [toString redirects ++ " redirects (suspicious)"], acc.2 + 0.10)
      else acc
    | none => (acc.1 ++ ["could not fetch URL (network or blocked)"], acc.2 + 0.05)
  let domain := probedDomain env url
  let acc := if !check_ssl_certificate env domain then
      (acc.1 ++ ["ssl certificate check failed"], acc.2 + 0.15) else acc
  acc

/-- The reasons/weight contribution of the HTTPS rule (lines 154-156) for
one URL. -/
def httpsBlock (url : String) : List String × ℚ :=
  if !is_https url then (["no HTTPS (insecure link)"], 0.20) else ([], 0)

/-- The contribution of the IP-literal rule (lines 157-159) for one URL. -/
def ipBlock (url : String) : List String × ℚ :=
  if has_ip_hostname url then (["URL uses raw IP address"], 0.20) else ([], 0)

/-- The contribution of the domain-length rule (lines 160-163) for one URL;
`if dd and dd > 25` reads as `dd ≠ 0 ∧ 25 < dd` since `0` is falsy. -/
def lenBlock (env : Env) (url : String) : List String × ℚ :=
  if domain_length env url ≠ 0 ∧ 25 < domain_length env url then
    (["long domain name"], 0.05)
  else ([], 0)

/-- The contribution of the brand-mimicry rule (lines 164-167) for one URL. -/
def brandBlock (env : Env) (url : String) : List String × ℚ :=
  match simple_typosquat_check env url with
  | some ts => ([ts], 0.15)
  | none => ([], 0)

/-- The contribution of the redirect-count/fetch-failure rules
(lines 168-177) for one URL: a successful fetch that reveals at least 3
redirects adds the redirect reason, a failed fetch adds the fetch-failure
reason. -/
def fetchBlock (env : Env) (url : String) : List String × ℚ :=
  match env.fetch url with
  | some redirects =>
    if 3 ≤ redirects then
      ([toString redirects ++ " redirects (suspicious)"], 0.10)
    else ([], 0)
  | none => (["could not fetch URL (network or blocked)"], 0.05)

/-- The contribution of the certificate rule (lines 178-184) for one URL:
it probes the registered domain (falling back to the bare domain). -/
def certBlock (env : Env) (url : String) : List String × ℚ :=
  if !check_ssl_certificate env (probedDomain env url) then
    (["ssl certificate check failed"], 0.15)
  else ([], 0)

/-- All reasons contributed by one URL, in the fixed rule order of the
loop body of `analyze_payload`. -/
def urlBlock (env : Env) (url : String) : List String :=
  (httpsBlock url).1 ++ (ipBlock url).1 ++ (lenBlock env url).1 ++
    (brandBlock env url).1 ++ (fetchBlock env url).1 ++ (certBlock env url).1

/-- The total weight contributed by one URL. -/
def urlWeight (env : Env) (url : String) : ℚ :=
  (httpsBlock url).2 + (ipBlock url).2 + (lenBlock env url).2 +
    (brandBlock env url).2 + (fetchBlock env url).2 + (certBlock env url).2

/-- Python's `round` (banker's rounding: ties go to the even integer). -/
def round_half_even (q : ℚ) : ℤ :=
  let f := Int.floor q
  let r := q - f
  if r < 1/2 then f
  else if 1/2 < r then f + 1
  else if f % 2 = 0 then f else f + 1

/-- `round(score, 2)` (line 198). -/
def pyRound2 (q : ℚ) : ℚ :=
  (round_half_even (q * 100) : ℚ) / 100

/-- `analyze_payload` (`backend_app.py` lines 136-198).  The `if urls:`
guard of line 152 is omitted since folding over an empty list is the
identity. -/
def analyze_payload (env : Env) (message : String) (urls : List String) :
    String × ℚ × List String :=
  let acc := urls.foldl (urlStep env) (kwBlock message)
  let score := if 1 < acc.2 then 1 else acc.2
  let verdict := if 0.6 ≤ score then "malicious"
    else if 0.3 ≤ score then "suspicious"
    else "safe"
  (verdict, pyRound2 score, acc.1)

/-- Python's `int()` on a rational: truncation toward zero. -/
def pyTrunc (q : ℚ) : ℤ :=
  q.num.sign * ((q.num.natAbs / q.den : ℕ) : ℤ)

/-- The awareness-score computation of the `userscores` endpoint
(`backend_app.py` lines 264-271): `max(0, int((correct / total) * 100)
- fp * 2)` when `total > 0`, else `0`. -/
def awareness_score (total correct fp : ℕ) : ℤ :=
  if 0 < total then
    max 0 (pyTrunc (((correct : ℚ) / (total : ℚ)) * 100) - fp * 2)
  else 0

/-- A row of the `users` table (`backend_app.py` lines 43-50), minus the
primary key, which is carried as the first component of the association
list in `St.users`. -/
structure URec where
  display_name : String
  total_reports : ℕ
  correct_reports : ℕ
  false_positives : ℕ
deriving DecidableEq

/-- A row of the `submissions` table (`backend_app.py` lines 29-42); the
autoincremented `id` is the position in `St.subs`.  The `created_at`
timestamp is omitted: no claim mentions it. -/
structure Sub where
  user_id : String
  source : String
  message : String
  urls : List String
  verdict : String
  score : ℚ
  reasons : List String
  feedback : Option String
deriving DecidableEq

/-- The persistent store: the `submissions` and `users` tables. -/
structure St where
  subs : List Sub
  users : List (String × URec)
deriving DecidableEq

/-- The effect of `UPDATE users SET total_reports = total_reports + 1
WHERE user_id = ?` (line 220) on one stored row. -/
def bumpTotalEntry (uid : String) (p : String × URec) : String × URec :=
  if p.1 = uid then
    (p.1, ⟨p.2.display_name, p.2.total_reports + 1, p.2.correct_reports,
           p.2.false_positives⟩)
  else p

/-- `UPDATE users SET total_reports = total_reports + 1 WHERE user_id = ?`
(line 220); a SQL UPDATE touching no row is a no-op. -/
def bumpTotal (users : List (String × URec)) (uid : String) : List (String × URec) :=
  users.map (bumpTotalEntry uid)

/-- The effect of the `correct_reports` UPDATE (lines 249 and 251) on one
stored row. -/
def bumpCorrectEntry (uid : String) (p : String × URec) : String × URec :=
  if p.1 = uid then
    (p.1, ⟨p.2.display_name, p.2.total_reports, p.2.correct_reports + 1,
           p.2.false_positives⟩)
  else p

/-- `UPDATE users SET correct_reports = correct_reports + 1 WHERE user_id = ?`
(lines 249 and 251). -/
def bumpCorrect (users : List (String × URec)) (uid : String) : List (String × URec) :=
  users.map (bumpCorrectEntry uid)

/-- The effect of the `false_positives` UPDATE (line 255) on one stored
row. -/
def bumpFpEntry (uid : String) (p : String × URec) : String × URec :=
  if p.1 = uid then
    (p.1, ⟨p.2.display_name, p.2.total_reports, p.2.correct_reports,
           p.2.false_positives + 1⟩)
  else p

/-- `UPDATE users SET false_positives = false_positives + 1 WHERE user_id = ?`
(line 255). -/
def bumpFp (users : List (String × URec)) (uid : String) : List (String × URec) :=
  users.map (bumpFpEntry uid)

/-- The `POST /api/analyze` endpoint (`backend_app.py` lines 201-222):
`urls = sub.urls or extract_urls_from_text(sub.message or "")` (an empty
list is falsy), analysis, insertion of the submission with `feedback =
NULL`, then lazy creation of the user (`total_reports = 1`, other counters
`0`) or `total_reports += 1` for an existing user. -/
def analyze_step (s : St) (uid src msg : String) (urlsIn : List String)
    (env : Env) : St :=
  let urls := if urlsIn.isEmpty then extract_urls_from_text msg else urlsIn
  let res := analyze_payload env msg urls
  let sub : Sub := ⟨uid, src, msg, urls, res.1, res.2.1, res.2.2, none⟩
  let users := if (s.users.lookup uid).isSome then bumpTotal s.users uid
    else s.users ++ [(uid, ⟨uid, 1, 0, 0⟩)]
  ⟨s.subs ++ [sub], users⟩

/-- The `POST /api/feedback` endpoint (`backend_app.py` lines 235-258):
404 (no state change) for an unknown submission id; otherwise the
submission's feedback label is overwritten unconditionally and the user
counters of the submission's user are reconciled by the ordered decision
of lines 247-256. -/
def feedback_step (s : St) (sid : ℕ) (fb : String) : St :=
  match s.subs[sid]? with
  | none => s
  | some sub =>
    let subs := s.subs.set sid
      ⟨sub.user_id, sub.source, sub.message, sub.urls, sub.verdict,
       sub.score, sub.reasons, some fb⟩
    let users :=
      if fb = "malicious" ∧ sub.verdict = "malicious" then
        bumpCorrect s.users sub.user_id
      else if fb = "safe" ∧ sub.verdict = "safe" then
        bumpCorrect s.users sub.user_id
      else if fb = "safe" ∧ sub.verdict ≠ "safe" then
        bumpFp s.users sub.user_id
      else s.users
    ⟨subs, users⟩

/-- An API call against the store. -/
inductive Op where
  | analyze (user_id source message : String) (urls : List String) (env : Env)
  | feedback (submission_id : ℕ) (label : String)

/-- Apply one API call. -/
def apply_op (s : St) : Op → St
  | .analyze uid src msg urls env => analyze_step s uid src msg urls env
  | .feedback sid fb => feedback_step s sid fb

/-- Run a sequence of API calls from the empty store. -/
def run (ops : List Op) : St :=
  ops.foldl apply_op ⟨[], []⟩

/-- The submission ids targeted by the feedback calls of a trace. -/
def feedbackIds (ops : List Op) : List ℕ :=
  ops.filterMap fun op => match op with
    | .feedback sid _ => some sid
    | _ => none

/-- An inert environment for concrete runs: `tldextract` extracts nothing
and every network probe raises. -/
def envT : Env :=
  ⟨fun _ => "", fun _ => "", fun _ => none, fun _ => none⟩

/-- The number of stored submissions by a given user. -/
def subsFor (subs : List Sub) (uid : String) : ℕ :=
  subs.countP (fun sb => sb.user_id == uid)

/-- The number of stored submissions by a given user that carry feedback. -/
def fedFor (subs : List Sub) (uid : String) : ℕ :=
  subs.countP (fun sb => sb.user_id == uid && sb.feedback.isSome)

/-- The inductive invariant of the store under traces whose processed
feedback ids are collected in `done`: every submission's user exists in
the user table; each user's total_reports counts exactly their stored
submissions; each user's correct_reports is bounded by the number of
their feedback-carrying submissions; and every feedback-carrying
submission id is in `done`. -/
def Inv (done : List ℕ) (s : St) : Prop :=
  (∀ sb ∈ s.subs, ∃ p ∈ s.users, p.1 = sb.user_id) ∧
  (∀ p ∈ s.users, p.2.total_reports = subsFor s.subs p.1) ∧
  (∀ p ∈ s.users, p.2.correct_reports ≤ fedFor s.subs p.1) ∧
  (∀ (i : ℕ) (sb : Sub), s.subs[i]? = some sb → sb.feedback.isSome → i ∈ done)

/-! ## The per-URL loop body decomposes into the six rule blocks -/

theorem urlStep_eq (env : Env) (acc : List String × ℚ) (url : String) :
    urlStep env acc url = (acc.1 ++ urlBlock env url, acc.2 + urlWeight env url) := by
  obtain ⟨rs, sc⟩ := acc
  simp only [urlStep, urlBlock, urlWeight, httpsBlock, ipBlock, lenBlock,
    brandBlock, fetchBlock, certBlock]
  repeat' split
  all_goals
    simp only [Prod.mk.injEq, List.append_assoc, List.append_nil, List.nil_append,
      add_zero, add_assoc, zero_add]

theorem foldl_urlStep (env : Env) (urls : List String) (rs : List String) (sc : ℚ) :
    urls.foldl (urlStep env) (rs, sc) =
      (rs ++ (urls.map (urlBlock env)).flatten, sc + (urls.map (urlWeight env)).sum) := by
  induction urls generalizing rs sc with
  | nil => simp
  | cons u us ih =>
    simp only [List.foldl_cons, urlStep_eq, ih, List.map_cons, List.flatten_cons,
      List.sum_cons, List.append_assoc, add_assoc]

theorem analyze_payload_reasons (env : Env) (message : String) (urls : List String) :
    (analyze_payload env message urls).2.2 =
      (kwBlock message).1 ++ (urls.map (urlBlock env)).flatten := by
  unfold analyze_payload
  rw [show (kwBlock message) = ((kwBlock message).1, (kwBlock message).2) from rfl,
    foldl_urlStep]

theorem analyze_payload_score (env : Env) (message : String) (urls : List String) :
    (analyze_payload env message urls).2.1 =
      pyRound2 (if 1 < (kwBlock message).2 + (urls.map (urlWeight env)).sum then 1
        else (kwBlock message).2 + (urls.map (urlWeight env)).sum) := by
  unfold analyze_payload
  rw [show (kwBlock message) = ((kwBlock message).1, (kwBlock message).2) from rfl,
    foldl_urlStep]

theorem analyze_payload_verdict (env : Env) (message : String) (urls : List String) :
    (analyze_payload env message urls).1 =
      (if 0.6 ≤ (if 1 < (kwBlock message).2 + (urls.map (urlWeight env)).sum then 1
          else (kwBlock message).2 + (urls.map (urlWeight env)).sum) then "malicious"
       else if 0.3 ≤ (if 1 < (kwBlock message).2 + (urls.map (urlWeight env)).sum then 1
          else (kwBlock message).2 + (urls.map (urlWeight env)).sum) then "suspicious"
       else "safe") := by
  unfold analyze_payload
  rw [show (kwBlock message) = ((kwBlock message).1, (kwBlock message).2) from rfl,
    foldl_urlStep]

/-! ## Every weight is a non-negative multiple of 1/20 -/

theorem kwBlock_snd_eq_min (message : String) :
    (kwBlock message).2 = min (0.2 * (kw_count message : ℚ)) 0.4 := by
  unfold kwBlock
  rcases Nat.eq_zero_or_pos (kw_count message) with h | h
  · rw [h]; norm_num
  · simp [Nat.pos_iff_ne_zero.mp h]

theorem kwBlock_snd_div20 (message : String) :
    ∃ n : ℕ, (kwBlock message).2 = (n : ℚ) / 20 := by
  rw [kwBlock_snd_eq_min]
  rcases Nat.lt_or_ge (kw_count message) 2 with h | h
  · rcases Nat.le_one_iff_eq_zero_or_eq_one.mp (Nat.lt_succ_iff.mp h) with h0 | h1
    · refine ⟨0, ?_⟩
      rw [h0]
      push_cast
      rw [mul_zero, min_eq_left (by norm_num)]
      norm_num
    · refine ⟨4, ?_⟩
      rw [h1]
      push_cast
      rw [mul_one, min_eq_left (by norm_num)]
      norm_num
  · refine ⟨8, ?_⟩
    rw [min_eq_right]
    · norm_num
    · have h2 : (2 : ℚ) ≤ (kw_count message : ℚ) := by exact_mod_cast h
      nlinarith

theorem httpsBlock_snd_div20 (url : String) :
    ∃ n : ℕ, (httpsBlock url).2 = (n : ℚ) / 20 := by
  unfold httpsBlock
  split
  · exact ⟨4, by norm_num⟩
  · exact ⟨0, by norm_num⟩

theorem ipBlock_snd_div20 (url : String) :
    ∃ n : ℕ, (ipBlock url).2 = (n : ℚ) / 20 := by
  unfold ipBlock
  split
  · exact ⟨4, by norm_num⟩
  · exact ⟨0, by norm_num⟩

theorem lenBlock_snd_div20 (env : Env) (url : String) :
    ∃ n : ℕ, (lenBlock env url).2 = (n : ℚ) / 20 := by
  unfold lenBlock
  split
  · exact ⟨1, by norm_num⟩
  · exact ⟨0, by norm_num⟩

theorem brandBlock_snd_div20 (env : Env) (url : String) :
    ∃ n : ℕ, (brandBlock env url).2 = (n : ℚ) / 20 := by
  unfold brandBlock
  split
  · exact ⟨3, by norm_num⟩
  · exact ⟨0, by norm_num⟩

theorem fetchBlock_snd_div20 (env : Env) (url : String) :
    ∃ n : ℕ, (fetchBlock env url).2 = (n : ℚ) / 20 := by
  unfold fetchBlock
  split
  · split
    · exact ⟨2, by norm_num⟩
    · exact ⟨0, by norm_num⟩
  · exact ⟨1, by norm_num⟩

theorem certBlock_snd_div20 (env : Env) (url : String) :
    ∃ n : ℕ, (certBlock env url).2 = (n : ℚ) / 20 := by
  unfold certBlock
  split
  · exact ⟨3, by norm_num⟩
  · exact ⟨0, by norm_num⟩

theorem urlWeight_div20 (env : Env) (url : String) :
    ∃ n : ℕ, urlWeight env url = (n : ℚ) / 20 := by
  obtain ⟨n1, h1⟩ := httpsBlock_snd_div20 url
  obtain ⟨n2, h2⟩ := ipBlock_snd_div20 url
  obtain ⟨n3, h3⟩ := lenBlock_snd_div20 env url
  obtain ⟨n4, h4⟩ := brandBlock_snd_div20 env url
  obtain ⟨n5, h5⟩ := fetchBlock_snd_div20 env url
  obtain ⟨n6, h6⟩ := certBlock_snd_div20 env url
  refine ⟨n1 + n2 + n3 + n4 + n5 + n6, ?_⟩
  unfold urlWeight
  rw [h1, h2, h3, h4, h5, h6]
  push_cast
  ring

theorem sum_urlWeight_div20 (env : Env) (urls : List String) :
    ∃ n : ℕ, (urls.map (urlWeight env)).sum = (n : ℚ) / 20 := by
  induction urls with
  | nil => exact ⟨0, by simp⟩
  | cons u us ih =>
    obtain ⟨n, hn⟩ := ih
    obtain ⟨m, hm⟩ := urlWeight_div20 env u
    refine ⟨m + n, ?_⟩
    rw [List.map_cons, List.sum_cons, hn, hm]
    push_cast
    ring

/-! ## Rounding to two decimals is the identity on the reachable scores -/

theorem pyRound2_of_int (q : ℚ) (m : ℤ) (hm : q * 100 = (m : ℚ)) :
    pyRound2 q = q := by
  unfold pyRound2 round_half_even
  rw [hm]
  simp only [Int.floor_intCast, sub_self]
  norm_num
  rw [div_eq_iff (by norm_num : (100 : ℚ) ≠ 0)]
  exact hm.symm

/-- C1: for every message and list of URLs, the score returned by
`analyze_payload` lies in [0, 1] (the sum of the non-negative triggered
weights, clamped above at 1), is an exact multiple of 1/100 (two decimal
places), and the returned verdict is the pure function of the returned
score given by the fixed thresholds, exact at the boundaries: 0.6 ≤ s →
"malicious", 0.3 ≤ s < 0.6 → "suspicious", s < 0.3 → "safe". -/
theorem claim1_score_range_and_verdict (env : Env) (message : String)
    (urls : List String) :
    0 ≤ (analyze_payload env message urls).2.1 ∧
    (analyze_payload env message urls).2.1 ≤ 1 ∧
    (∃ n : ℕ, n ≤ 100 ∧ (analyze_payload env message urls).2.1 = (n : ℚ) / 100) ∧
    (analyze_payload env message urls).1 =
      (if 0.6 ≤ (analyze_payload env message urls).2.1 then "malicious"
       else if 0.3 ≤ (analyze_payload env message urls).2.1 then "suspicious"
       else "safe") := by
  obtain ⟨a, ha⟩ := kwBlock_snd_div20 message
  obtain ⟨b, hb⟩ := sum_urlWeight_div20 env urls
  set raw : ℚ := (kwBlock message).2 + (urls.map (urlWeight env)).sum with hraw
  have hrawd : raw = ((a + b : ℕ) : ℚ) / 20 := by
    rw [hraw, ha, hb]; push_cast; ring
  by_cases hc : 1 < raw
  · have hs : (analyze_payload env message urls).2.1 = 1 := by
      rw [analyze_payload_score, ← hraw, if_pos hc]
      exact pyRound2_of_int 1 100 (by norm_num)
    refine ⟨by rw [hs]; norm_num, by rw [hs],
      ⟨100, le_refl 100, by rw [hs]; norm_num⟩, ?_⟩
    rw [analyze_payload_verdict, ← hraw, if_pos hc, hs]
  · have hle : raw ≤ 1 := not_lt.mp hc
    have hs : (analyze_payload env message urls).2.1 = raw := by
      rw [analyze_payload_score, ← hraw, if_neg hc]
      refine pyRound2_of_int raw (((a + b : ℕ) : ℤ) * 5) ?_
      rw [hrawd]; push_cast; ring
    have hm : a + b ≤ 20 := by
      have h1 : ((a + b : ℕ) : ℚ) / 20 ≤ 1 := by rw [← hrawd]; exact hle
      have h2 : ((a + b : ℕ) : ℚ) ≤ 20 := by
        rwa [div_le_one (by norm_num)] at h1
      exact_mod_cast h2
    have hnn : (0 : ℚ) ≤ raw := by rw [hrawd]; positivity
    refine ⟨by rw [hs]; exact hnn, by rw [hs]; exact hle,
      ⟨5 * (a + b), by omega, ?_⟩, ?_⟩
    · rw [hs, hrawd]; push_cast; ring
    · rw [analyze_payload_verdict, ← hraw, if_neg hc, hs]

/-! ## Truncation toward zero agrees with the floor on non-negatives -/

theorem floor_natCast_div (a b : ℕ) (hb : 0 < b) :
    Int.floor ((a : ℚ) / (b : ℚ)) = ((a / b : ℕ) : ℤ) := by
  have hbq : (0 : ℚ) < (b : ℚ) := by exact_mod_cast hb
  rw [Int.floor_eq_iff]
  constructor
  · rw [le_div_iff hbq]
    exact_mod_cast Nat.div_mul_le_self a b
  · rw [div_lt_iff hbq]
    have key : a < (a / b + 1) * b := by
      calc a = b * (a / b) + a % b := (Nat.div_add_mod a b).symm
        _ < b * (a / b) + b := by
            have := Nat.mod_lt a hb
            omega
        _ = (a / b + 1) * b := by ring
    exact_mod_cast key

theorem pyTrunc_eq_floor (q : ℚ) (hq : 0 ≤ q) : pyTrunc q = Int.floor q := by
  unfold pyTrunc
  have hnum : 0 ≤ q.num := Rat.num_nonneg.mpr hq
  rcases eq_or_lt_of_le hnum with h0 | hpos
  · have hq0 : q = 0 := by
      rw [← Rat.num_eq_zero]
      exact h0.symm
    rw [hq0]
    simp
  · have hsign : q.num.sign = 1 := Int.sign_eq_one_of_pos hpos
    rw [hsign, one_mul]
    have hd : 0 < q.den := q.pos
    have hrepr : q = ((q.num.natAbs : ℕ) : ℚ) / ((q.den : ℕ) : ℚ) := by
      have hcast : ((q.num.natAbs : ℕ) : ℚ) = ((q.num : ℤ) : ℚ) := by
        rw [Int.cast_natAbs]
        exact_mod_cast abs_of_nonneg hnum
      rw [hcast]
      exact (Rat.num_div_den q).symm
    conv_rhs => rw [hrepr]
    rw [floor_natCast_div _ _ hd]

/-- C3: the awareness score is 0 for a user with no reports and otherwise
equals `max 0 (⌊(correct / total) * 100⌋ - 2 * false_positives)`, the
integer truncation being applied to the percentage term before the
penalty is subtracted; it is never negative, and the example user with
10 total, 8 correct and 1 false positive scores 78. -/
theorem claim3_awareness_formula (total correct fp : ℕ) :
    awareness_score total correct fp =
      (if total = 0 then 0
       else max 0 (Int.floor (((correct : ℚ) / (total : ℚ)) * 100) - fp * 2)) ∧
    0 ≤ awareness_score total correct fp ∧
    awareness_score 10 8 1 = 78 := by
  refine ⟨?_, ?_, ?_⟩
  case refine_3 =>
    unfold awareness_score
    rw [if_pos (by norm_num : 0 < 10)]
    have hq : (0 : ℚ) ≤ ((8 : ℕ) : ℚ) / ((10 : ℕ) : ℚ) * 100 := by positivity
    rw [pyTrunc_eq_floor _ hq]
    rw [show (((8 : ℕ) : ℚ) / ((10 : ℕ) : ℚ) * 100) = ((80 : ℤ) : ℚ) by
      push_cast; norm_num]
    rw [Int.floor_intCast]
    norm_num [max_def]
  · unfold awareness_score
    rcases Nat.eq_zero_or_pos total with h0 | hpos
    · rw [h0]; simp
    · rw [if_pos hpos, if_neg (Nat.pos_iff_ne_zero.mp hpos)]
      have htr : pyTrunc (((correct : ℚ) / (total : ℚ)) * 100) =
          Int.floor (((correct : ℚ) / (total : ℚ)) * 100) :=
        pyTrunc_eq_floor _ (by positivity)
      rw [htr]
  · unfold awareness_score
    split
    · exact le_max_left 0 _
    · exact le_refl 0

/-! ## The keyword rule -/

theorem kwBlock_fst_eq (message : String) :
    (kwBlock message).1 =
      (if 1 ≤ kw_count message then
        ["suspicious keywords (" ++ toString (kw_count message) ++ ")"]
       else []) := by
  rcases Nat.eq_zero_or_pos (kw_count message) with h | h
  · simp [kwBlock, h]
  · have hne := Nat.pos_iff_ne_zero.mp h
    simp only [kwBlock]
    rw [if_pos hne, if_pos (Nat.one_le_iff_ne_zero.mpr hne)]

theorem kwBlock_snd_le (message : String) : (kwBlock message).2 ≤ 0.4 := by
  rw [kwBlock_snd_eq_min]
  exact min_le_right _ _

theorem analyze_payload_nil_score (env : Env) (message : String) :
    (analyze_payload env message []).2.1 = (kwBlock message).2 := by
  rw [analyze_payload_score]
  simp only [List.map_nil, List.sum_nil, add_zero]
  have hle := kwBlock_snd_le message
  rw [if_neg (not_lt.mpr (by linarith))]
  obtain ⟨n, hn⟩ := kwBlock_snd_div20 message
  exact pyRound2_of_int _ ((n : ℤ) * 5) (by rw [hn]; push_cast; ring)

theorem analyze_payload_nil_reasons (env : Env) (message : String) :
    (analyze_payload env message []).2.2 = (kwBlock message).1 := by
  rw [analyze_payload_reasons]
  simp

theorem analyze_payload_nil_verdict (env : Env) (message : String) :
    (analyze_payload env message []).1 =
      (if 0.6 ≤ (kwBlock message).2 then "malicious"
       else if 0.3 ≤ (kwBlock message).2 then "suspicious"
       else "safe") := by
  rw [analyze_payload_verdict]
  simp only [List.map_nil, List.sum_nil, add_zero]
  have hle := kwBlock_snd_le message
  rw [if_neg (not_lt.mpr (by linarith))]

/-- C6: the keyword rule runs once over the whole lowercased message: with
`N` the number of keywords of the fixed 14-entry list occurring as
substrings, it contributes exactly `min (0.2 * N) 0.4` to the score (so on
a payload with no URLs the final score is that contribution), appends the
single reason "suspicious keywords (N)" if and only if `N ≥ 1`, and
reaches the cap 0.4 exactly when `N ≥ 2`. -/
theorem claim6_keyword_rule (env : Env) (message : String) :
    SUSPICIOUS_KEYWORDS.length = 14 ∧
    kw_count message = SUSPICIOUS_KEYWORDS.countP
      (fun k => decide (k.data <:+: message.data.map Char.toLower)) ∧
    (analyze_payload env message []).2.1 = min (0.2 * (kw_count message : ℚ)) 0.4 ∧
    (analyze_payload env message []).2.2 =
      (if 1 ≤ kw_count message then
        ["suspicious keywords (" ++ toString (kw_count message) ++ ")"]
       else []) ∧
    (min (0.2 * (kw_count message : ℚ)) 0.4 = 0.4 ↔ 2 ≤ kw_count message) := by
  refine ⟨rfl, rfl, ?_, ?_, ?_, ?_⟩
  · rw [analyze_payload_nil_score, kwBlock_snd_eq_min]
  · rw [analyze_payload_nil_reasons, kwBlock_fst_eq]
  · intro hmin
    by_contra hlt
    push_neg at hlt
    rcases Nat.le_one_iff_eq_zero_or_eq_one.mp (Nat.lt_succ_iff.mp hlt) with h0 | h1
    · rw [h0] at hmin
      push_cast at hmin
      rw [mul_zero, min_eq_left (by norm_num)] at hmin
      norm_num at hmin
    · rw [h1] at hmin
      push_cast at hmin
      rw [mul_one, min_eq_left (by norm_num)] at hmin
      norm_num at hmin
  · intro h
    rw [min_eq_right]
    have h2 : (2 : ℚ) ≤ (kw_count message : ℚ) := by exact_mod_cast h
    nlinarith

/-- C7 counterexample: in the message "Urgent! Verify your account" the
keyword matches are "urgent", "verify", "verify your" and "account" — the
count is 4, not 3 as claimed. -/
theorem claim7_cex : kw_count "Urgent! Verify your account" ≠ 3 := by decide

/-- C7 (amended): for the message "Urgent! Verify your account" with an
empty URL list, the keyword matches are "urgent", "verify", "verify your"
and "account" (count 4), the keyword contribution is min(0.8, 0.4) = 0.4,
the final score is 0.40, and the verdict is "suspicious". -/
theorem claim7_scenario1 (env : Env) :
    kw_count "Urgent! Verify your account" = 4 ∧
    analyze_payload env "Urgent! Verify your account" [] =
      ("suspicious", 0.4, ["suspicious keywords (4)"]) := by
  have hk : kw_count "Urgent! Verify your account" = 4 := by decide
  refine ⟨hk, ?_⟩
  have hs2 : (kwBlock "Urgent! Verify your account").2 = 0.4 := by
    rw [kwBlock_snd_eq_min, hk]
    rw [min_eq_right (by push_cast; norm_num)]
  refine Prod.ext ?_ (Prod.ext ?_ ?_)
  · rw [analyze_payload_nil_verdict, hs2]
    norm_num
  · rw [analyze_payload_nil_score, hs2]
  · rw [analyze_payload_nil_reasons, kwBlock_fst_eq, hk]
    rw [if_pos (by norm_num)]
    decide

/-! ## Which reason strings can appear in a URL block, and when -/

theorem redirect_string_ne (n : ℕ) (t : String)
    (hnot : ¬ (" redirects (suspicious)".data <:+ t.data)) :
    toString n ++ " redirects (suspicious)" ≠ t := by
  intro h
  apply hnot
  rw [← h, String.data_append]
  exact List.suffix_append _ _

theorem typosquat_eq (env : Env) (url : String) (ts : String)
    (h : simple_typosquat_check env url = some ts) :
    ∃ b ∈ POPULAR_BRANDS, ts = "possible typosquat/brand mimicry (" ++ b ++ ")" := by
  unfold simple_typosquat_check at h
  rw [Option.map_eq_some'] at h
  obtain ⟨b, hb, hts⟩ := h
  exact ⟨b, List.mem_of_find?_eq_some hb, hts.symm⟩

theorem mem_urlBlock_cases (env : Env) (url : String) (s : String)
    (h : s ∈ urlBlock env url) :
    s = "no HTTPS (insecure link)" ∨
    s = "URL uses raw IP address" ∨
    s = "long domain name" ∨
    (∃ b ∈ POPULAR_BRANDS, s = "possible typosquat/brand mimicry (" ++ b ++ ")") ∨
    (∃ n : ℕ, env.fetch url = some n ∧ 3 ≤ n ∧
      s = toString n ++ " redirects (suspicious)") ∨
    (env.fetch url = none ∧ s = "could not fetch URL (network or blocked)") ∨
    (¬ check_ssl_certificate env (probedDomain env url) ∧
      s = "ssl certificate check failed") := by
  have h6 : s ∈ (httpsBlock url).1 ∨ s ∈ (ipBlock url).1 ∨ s ∈ (lenBlock env url).1 ∨
      s ∈ (brandBlock env url).1 ∨ s ∈ (fetchBlock env url).1 ∨
      s ∈ (certBlock env url).1 := by
    simpa [urlBlock, List.mem_append, or_assoc] using h
  rcases h6 with hx | hx | hx | hx | hx | hx
  · unfold httpsBlock at hx
    split at hx
    · exact Or.inl (List.mem_singleton.mp hx)
    · simp at hx
  · unfold ipBlock at hx
    split at hx
    · exact Or.inr (Or.inl (List.mem_singleton.mp hx))
    · simp at hx
  · unfold lenBlock at hx
    split at hx
    · exact Or.inr (Or.inr (Or.inl (List.mem_singleton.mp hx)))
    · simp at hx
  · unfold brandBlock at hx
    split at hx
    case h_1 ts heq =>
      obtain ⟨b, hb, hts⟩ := typosquat_eq env url ts heq
      exact Or.inr (Or.inr (Or.inr (Or.inl
        ⟨b, hb, by rw [List.mem_singleton.mp hx, hts]⟩)))
    case h_2 => simp at hx
  · unfold fetchBlock at hx
    split at hx
    case h_1 redirects heq =>
      split at hx
      case isTrue h3 =>
        exact Or.inr (Or.inr (Or.inr (Or.inr (Or.inl
          ⟨redirects, heq, h3, List.mem_singleton.mp hx⟩))))
      case isFalse => simp at hx
    case h_2 heq =>
      exact Or.inr (Or.inr (Or.inr (Or.inr (Or.inr (Or.inl
        ⟨heq, List.mem_singleton.mp hx⟩)))))
  · unfold certBlock at hx
    split at hx
    case isTrue hcond =>
      have hfalse : check_ssl_certificate env (probedDomain env url) = false := by
        revert hcond
        cases check_ssl_certificate env (probedDomain env url) <;> simp
      exact Or.inr (Or.inr (Or.inr (Or.inr (Or.inr (Or.inr
        ⟨by simp [hfalse], List.mem_singleton.mp hx⟩)))))
    case isFalse => simp at hx

theorem cert_mem_urlBlock (env : Env) (url : String) :
    "ssl certificate check failed" ∈ urlBlock env url ↔
      ¬ check_ssl_certificate env (probedDomain env url) := by
  constructor
  · intro h
    rcases mem_urlBlock_cases env url _ h with
      h1 | h2 | h3 | ⟨b, hb, h4⟩ | ⟨n, _, _, h5⟩ | ⟨_, h6⟩ | ⟨hc, _⟩
    · exact absurd h1 (by decide)
    · exact absurd h2 (by decide)
    · exact absurd h3 (by decide)
    · simp only [POPULAR_BRANDS, List.mem_cons, List.not_mem_nil, or_false] at hb
      rcases hb with rfl | rfl | rfl | rfl | rfl | rfl | rfl | rfl <;>
        exact absurd h4 (by decide)
    · exact absurd h5.symm (redirect_string_ne n _ (by decide))
    · exact absurd h6 (by decide)
    · exact hc
  · intro hc
    have hfalse : check_ssl_certificate env (probedDomain env url) = false := by
      revert hc
      cases check_ssl_certificate env (probedDomain env url) <;> simp
    have hcert : (certBlock env url).1 = ["ssl certificate check failed"] := by
      unfold certBlock
      rw [if_pos (by simp [hfalse])]
    unfold urlBlock
    rw [hcert]
    simp

/-- C8: the reasons list is ordered exactly as the rules are evaluated —
the keyword reason (if any) first, then for each URL in input order the
blocks of the six URL rules in the fixed order HTTPS, IP-literal, domain
length, brand mimicry, redirect/fetch, certificate; per URL the
redirect-chain and fetch-failure reasons are mutually exclusive, and the
certificate reason appears if and only if the certificate probe of the
registered domain fails, regardless of the fetch outcome. -/
theorem claim8_reasons_order (env : Env) (message : String) (urls : List String) :
    ((analyze_payload env message urls).2.2 =
      (kwBlock message).1 ++ (urls.map (urlBlock env)).flatten) ∧
    (∀ url : String,
      ¬ ("could not fetch URL (network or blocked)" ∈ urlBlock env url ∧
          ∃ n : ℕ, (toString n ++ " redirects (suspicious)") ∈ urlBlock env url)) ∧
    (∀ url : String, "ssl certificate check failed" ∈ urlBlock env url ↔
      ¬ check_ssl_certificate env (probedDomain env url)) := by
  refine ⟨analyze_payload_reasons env message urls, ?_,
    fun url => cert_mem_urlBlock env url⟩
  rintro url ⟨hff, n, hrd⟩
  have hfn : env.fetch url = none := by
    rcases mem_urlBlock_cases env url _ hff with
      h1 | h2 | h3 | ⟨b, hb, h4⟩ | ⟨m, _, _, h5⟩ | ⟨hf, _⟩ | ⟨_, h7⟩
    · exact absurd h1 (by decide)
    · exact absurd h2 (by decide)
    · exact absurd h3 (by decide)
    · simp only [POPULAR_BRANDS, List.mem_cons, List.not_mem_nil, or_false] at hb
      rcases hb with rfl | rfl | rfl | rfl | rfl | rfl | rfl | rfl <;>
        exact absurd h4 (by decide)
    · exact absurd h5.symm (redirect_string_ne m _ (by decide))
    · exact hf
    · exact absurd h7 (by decide)
  rcases mem_urlBlock_cases env url _ hrd with
    g1 | g2 | g3 | ⟨b, hb, g4⟩ | ⟨m, hm, _, _⟩ | ⟨_, g6⟩ | ⟨_, g7⟩
  · exact redirect_string_ne n _ (by decide) g1
  · exact redirect_string_ne n _ (by decide) g2
  · exact redirect_string_ne n _ (by decide) g3
  · simp only [POPULAR_BRANDS, List.mem_cons, List.not_mem_nil, or_false] at hb
    rcases hb with rfl | rfl | rfl | rfl | rfl | rfl | rfl | rfl <;>
      exact redirect_string_ne n _ (by decide) g4
  · rw [hfn] at hm
    simp at hm
  · exact redirect_string_ne n _ (by decide) g6
  · exact redirect_string_ne n _ (by decide) g7

/-- C10: for every URL, the reason "ssl certificate check failed" (the
whole reasons list of a payload with empty message and that single URL
being its URL block) is added exactly when the HTTPS GET probe of the
URL's registered domain (with fallback to the bare domain) either raises
an exception or returns a status code ≥ 500 — in particular a domain
whose TLS handshake succeeds but whose server answers 5xx still triggers
the rule. -/
theorem claim10_cert_rule (env : Env) (url : String) :
    ((analyze_payload env "" [url]).2.2 = urlBlock env url) ∧
    ("ssl certificate check failed" ∈ urlBlock env url ↔
      (env.cert_fetch (probedDomain env url) = none ∨
        ∃ code : ℕ, env.cert_fetch (probedDomain env url) = some code ∧
          500 ≤ code)) := by
  constructor
  · rw [analyze_payload_reasons]
    have hkw : (kwBlock "").1 = [] := by
      rw [kwBlock_fst_eq, if_neg]
      have h0 : kw_count "" = 0 := by decide
      omega
    rw [hkw]
    simp
  · rw [cert_mem_urlBlock]
    unfold check_ssl_certificate
    cases hf : env.cert_fetch (probedDomain env url) with
    | none => simp
    | some code =>
      simp only [decide_eq_true_eq, Option.some_ne_none, false_or,
        Option.some.injEq, not_lt]
      constructor
      · intro hge
        exact ⟨code, rfl, hge⟩
      · rintro ⟨c, rfl, hge⟩
        exact hge

/-! ## The feedback endpoint: counter deltas and non-idempotence -/

theorem feedback_step_of_none (s : St) (sid : ℕ) (fb : String)
    (h : s.subs[sid]? = none) : feedback_step s sid fb = s := by
  unfold feedback_step
  rw [h]

theorem feedback_step_subs (s : St) (sid : ℕ) (fb : String) (sub : Sub)
    (h : s.subs[sid]? = some sub) :
    (feedback_step s sid fb).subs[sid]? = some
      ⟨sub.user_id, sub.source, sub.message, sub.urls, sub.verdict,
       sub.score, sub.reasons, some fb⟩ := by
  have hlt : sid < s.subs.length := by
    rcases List.getElem?_eq_some_iff.mp h with ⟨hl, _⟩
    exact hl
  unfold feedback_step
  rw [h]
  exact List.getElem?_set_self hlt

theorem feedback_step_users (s : St) (sid : ℕ) (fb : String) (sub : Sub)
    (h : s.subs[sid]? = some sub) (i : ℕ) (p : String × URec)
    (hp : s.users[i]? = some p) :
    (feedback_step s sid fb).users[i]? = some (p.1,
      ⟨p.2.display_name, p.2.total_reports,
       p.2.correct_reports +
         (if p.1 = sub.user_id ∧ ((fb = "malicious" ∧ sub.verdict = "malicious") ∨
             (fb = "safe" ∧ sub.verdict = "safe")) then 1 else 0),
       p.2.false_positives +
         (if p.1 = sub.user_id ∧ fb = "safe" ∧ sub.verdict ≠ "safe"
          then 1 else 0)⟩) := by
  unfold feedback_step
  rw [h]
  dsimp only
  by_cases h1 : fb = "malicious" ∧ sub.verdict = "malicious"
  · rw [if_pos h1]
    unfold bumpCorrect bumpCorrectEntry
    rw [List.getElem?_map, hp, Option.map_some']
    by_cases hk : p.1 = sub.user_id
    · rw [if_pos hk, if_pos ⟨hk, Or.inl h1⟩,
        if_neg (by rintro ⟨-, hsafe, -⟩; rw [h1.1] at hsafe; exact absurd hsafe (by decide))]
      simp
    · rw [if_neg hk, if_neg (fun hc => hk hc.1), if_neg (fun hc => hk hc.1)]
      simp
  · rw [if_neg h1]
    by_cases h2 : fb = "safe" ∧ sub.verdict = "safe"
    · rw [if_pos h2]
      unfold bumpCorrect bumpCorrectEntry
      rw [List.getElem?_map, hp, Option.map_some']
      by_cases hk : p.1 = sub.user_id
      · rw [if_pos hk, if_pos ⟨hk, Or.inr h2⟩,
          if_neg (by rintro ⟨-, -, hne⟩; exact hne h2.2)]
        simp
      · rw [if_neg hk, if_neg (fun hc => hk hc.1), if_neg (fun hc => hk hc.1)]
        simp
    · rw [if_neg h2]
      by_cases h3 : fb = "safe" ∧ sub.verdict ≠ "safe"
      · rw [if_pos h3]
        unfold bumpFp bumpFpEntry
        rw [List.getElem?_map, hp, Option.map_some']
        by_cases hk : p.1 = sub.user_id
        · rw [if_pos hk,
            if_neg (by
              rintro ⟨-, hor⟩
              rcases hor with hmm1 | hss
              · exact h1 hmm1
              · exact h2 hss),
            if_pos ⟨hk, h3⟩]
          simp
        · rw [if_neg hk, if_neg (fun hc => hk hc.1), if_neg (fun hc => hk hc.1)]
          simp
      · rw [if_neg h3]
        rw [hp]
        rw [if_neg (by
            rintro ⟨hk, hor⟩
            rcases hor with hmm1 | hss
            · exact h1 hmm1
            · exact h2 hss),
          if_neg (fun hc => h3 hc.2)]
        simp

/-- C4: for every stored submission and every feedback call on it, the
counter deltas applied to each user entry follow the ordered decision of
the reconciliation: correct_reports gains 1 exactly on the submission's
user when (feedback, stored verdict) is (malicious, malicious) or
(safe, safe); false_positives gains 1 exactly on the submission's user
when feedback is "safe" and the stored verdict is not "safe"; in every
other case — including feedback "malicious" on a non-malicious verdict
and arbitrary other feedback strings — no counter changes, while
total_reports and the display name never change. -/
theorem claim4_reconciliation (s : St) (sid : ℕ) (fb : String) (sub : Sub)
    (h : s.subs[sid]? = some sub) (i : ℕ) (p : String × URec)
    (hp : s.users[i]? = some p) :
    (feedback_step s sid fb).users[i]? = some (p.1,
      ⟨p.2.display_name, p.2.total_reports,
       p.2.correct_reports +
         (if p.1 = sub.user_id ∧ ((fb = "malicious" ∧ sub.verdict = "malicious") ∨
             (fb = "safe" ∧ sub.verdict = "safe")) then 1 else 0),
       p.2.false_positives +
         (if p.1 = sub.user_id ∧ fb = "safe" ∧ sub.verdict ≠ "safe"
          then 1 else 0)⟩) :=
  feedback_step_users s sid fb sub h i p hp

/-- C4 witness: a concrete malicious/malicious feedback call increments
correct_reports of the submission's user by one and nothing else. -/
theorem claim4_witness :
    (feedback_step
        ⟨[⟨"u", "dashboard", "m", [], "malicious", 0, [], none⟩],
         [("u", ⟨"u", 1, 0, 0⟩)]⟩ 0 "malicious").users[0]? =
      some ("u",
        ⟨"u", 1,
         0 + (if ("u" : String) = "u" ∧ ((("malicious" : String) = "malicious" ∧
               ("malicious" : String) = "malicious") ∨
             (("malicious" : String) = "safe" ∧ ("malicious" : String) = "safe"))
           then 1 else 0),
         0 + (if ("u" : String) = "u" ∧ ("malicious" : String) = "safe" ∧
               ("malicious" : String) ≠ "safe" then 1 else 0)⟩) :=
  claim4_reconciliation
    ⟨[⟨"u", "dashboard", "m", [], "malicious", 0, [], none⟩],
     [("u", ⟨"u", 1, 0, 0⟩)]⟩ 0 "malicious"
    ⟨"u", "dashboard", "m", [], "malicious", 0, [], none⟩ rfl 0
    ("u", ⟨"u", 1, 0, 0⟩) rfl

/-- C5: feedback is not idempotent: each call overwrites the stored
feedback label unconditionally with the new value, and two identical
feedback calls on the same submission move the user counters by exactly
twice the single-call delta. -/
theorem claim5_not_idempotent (s : St) (sid : ℕ) (fb : String) :
    (∀ sub : Sub, s.subs[sid]? = some sub →
      (feedback_step s sid fb).subs[sid]? = some
        ⟨sub.user_id, sub.source, sub.message, sub.urls, sub.verdict,
         sub.score, sub.reasons, some fb⟩) ∧
    (∀ (i : ℕ) (p : String × URec), s.users[i]? = some p →
      ∃ dc df : ℕ,
        (feedback_step s sid fb).users[i]? = some (p.1,
          ⟨p.2.display_name, p.2.total_reports, p.2.correct_reports + dc,
           p.2.false_positives + df⟩) ∧
        (feedback_step (feedback_step s sid fb) sid fb).users[i]? = some (p.1,
          ⟨p.2.display_name, p.2.total_reports, p.2.correct_reports + 2 * dc,
           p.2.false_positives + 2 * df⟩)) := by
  rcases hsub : s.subs[sid]? with _ | sub
  · constructor
    · intro sub hs
      exact Option.noConfusion hs
    · intro i p hp
      refine ⟨0, 0, ?_, ?_⟩ <;>
        simp only [feedback_step_of_none s sid fb hsub] <;>
        simpa using hp
  · constructor
    · intro sub2 hs
      injection hs with hs2
      rw [← hs2]
      exact feedback_step_subs s sid fb sub hsub
    · intro i p hp
      refine ⟨(if p.1 = sub.user_id ∧ ((fb = "malicious" ∧ sub.verdict = "malicious") ∨
             (fb = "safe" ∧ sub.verdict = "safe")) then 1 else 0),
        (if p.1 = sub.user_id ∧ fb = "safe" ∧ sub.verdict ≠ "safe"
          then 1 else 0), feedback_step_users s sid fb sub hsub i p hp, ?_⟩
      have h1 := feedback_step_users s sid fb sub hsub i p hp
      have hsub1 := feedback_step_subs s sid fb sub hsub
      have h2 := feedback_step_users (feedback_step s sid fb) sid fb _ hsub1 i _ h1
      rw [h2]
      dsimp only
      simp only [Option.some.injEq, Prod.mk.injEq, URec.mk.injEq, true_and]
      refine ⟨?_, ?_⟩ <;> split <;> omega

/-- C5 witness: two identical "safe" feedback calls on a submission whose
stored verdict is "safe" leave the label overwritten with "safe" and the
user's correct_reports increased by 2 = 2 x the single-call delta. -/
theorem claim5_witness :
    (∀ sub : Sub,
      (⟨[⟨"u", "dashboard", "m", [], "safe", 0, [], none⟩],
        [("u", ⟨"u", 1, 0, 0⟩)]⟩ : St).subs[0]? = some sub →
      (feedback_step ⟨[⟨"u", "dashboard", "m", [], "safe", 0, [], none⟩],
        [("u", ⟨"u", 1, 0, 0⟩)]⟩ 0 "safe").subs[0]? = some
        ⟨sub.user_id, sub.source, sub.message, sub.urls, sub.verdict,
         sub.score, sub.reasons, some "safe"⟩) ∧
    (∀ (i : ℕ) (p : String × URec),
      (⟨[⟨"u", "dashboard", "m", [], "safe", 0, [], none⟩],
        [("u", ⟨"u", 1, 0, 0⟩)]⟩ : St).users[i]? = some p →
      ∃ dc df : ℕ,
        (feedback_step ⟨[⟨"u", "dashboard", "m", [], "safe", 0, [], none⟩],
          [("u", ⟨"u", 1, 0, 0⟩)]⟩ 0 "safe").users[i]? = some (p.1,
          ⟨p.2.display_name, p.2.total_reports, p.2.correct_reports + dc,
           p.2.false_positives + df⟩) ∧
        (feedback_step (feedback_step
            ⟨[⟨"u", "dashboard", "m", [], "safe", 0, [], none⟩],
             [("u", ⟨"u", 1, 0, 0⟩)]⟩ 0 "safe") 0 "safe").users[i]? = some (p.1,
          ⟨p.2.display_name, p.2.total_reports, p.2.correct_reports + 2 * dc,
           p.2.false_positives + 2 * df⟩)) :=
  claim5_not_idempotent
    ⟨[⟨"u", "dashboard", "m", [], "safe", 0, [], none⟩],
     [("u", ⟨"u", 1, 0, 0⟩)]⟩ 0 "safe"

/-! ## Which URLs are analyzed and stored -/

theorem analyze_step_stored_urls (s : St) (uid src msg : String)
    (urlsIn : List String) (env : Env) :
    ((analyze_step s uid src msg urlsIn env).subs[s.subs.length]?).map
        (fun sb => sb.urls) =
      some (if urlsIn.isEmpty then extract_urls_from_text msg else urlsIn) := by
  unfold analyze_step
  dsimp only
  rw [List.getElem?_concat_length, Option.map_some']

/-- C9 counterexample: a request that explicitly supplies the same URL
twice is analyzed and stored with the duplicate intact — the claim that
every stored submission has duplicate-free URLs is false. -/
theorem claim9_cex :
    ¬ (∀ sb ∈ (run [Op.analyze "u" "dashboard" ""
        ["http://a.com", "http://a.com"] envT]).subs, sb.urls.Nodup) := by
  intro hall
  have h1 : ((analyze_step ⟨[], []⟩ "u" "dashboard" ""
        ["http://a.com", "http://a.com"] envT).subs[0]?).map
        (fun sb => sb.urls) = some ["http://a.com", "http://a.com"] :=
    analyze_step_stored_urls ⟨[], []⟩ "u" "dashboard" ""
      ["http://a.com", "http://a.com"] envT
  rcases hx : (analyze_step ⟨[], []⟩ "u" "dashboard" ""
      ["http://a.com", "http://a.com"] envT).subs[0]? with _ | sb
  · rw [hx] at h1
    exact Option.noConfusion h1
  · rw [hx, Option.map_some'] at h1
    have hurls : sb.urls = ["http://a.com", "http://a.com"] :=
      Option.some.inj h1
    have hmem : sb ∈ (run [Op.analyze "u" "dashboard" ""
        ["http://a.com", "http://a.com"] envT]).subs :=
      List.getElem?_mem hx
    have hnd := hall sb hmem
    rw [hurls] at hnd
    exact (by decide : ¬ (["http://a.com", "http://a.com"] : List String).Nodup) hnd

/-- C9 (amended): URLs derived from the message by the extractor are
deduplicated (the extracted list never contains a duplicate), but URLs
supplied explicitly in the request are analyzed and stored exactly as
given, without deduplication. -/
theorem claim9_url_dedup :
    (∀ text : String, (extract_urls_from_text text).Nodup) ∧
    (∀ (s : St) (uid src msg : String) (urlsIn : List String) (env : Env),
      urlsIn ≠ [] →
      ((analyze_step s uid src msg urlsIn env).subs[s.subs.length]?).map
        (fun sb => sb.urls) = some urlsIn) ∧
    (∀ (s : St) (uid src msg : String) (env : Env),
      ((analyze_step s uid src msg [] env).subs[s.subs.length]?).map
        (fun sb => sb.urls) = some (extract_urls_from_text msg)) := by
  refine ⟨?_, ?_, ?_⟩
  · intro text
    unfold extract_urls_from_text
    split
    · exact List.nodup_nil
    · exact List.nodup_dedup _
  · intro s uid src msg urlsIn env hne
    rw [analyze_step_stored_urls]
    cases urlsIn with
    | nil => exact absurd rfl hne
    | cons u us => rfl
  · intro s uid src msg env
    rw [analyze_step_stored_urls]
    rfl

/-- C9 witness: a concrete explicitly-supplied two-element URL list is
stored as given, and a concrete extraction result is duplicate-free. -/
theorem claim9_witness :
    (extract_urls_from_text "see http://a.com http://a.com").Nodup ∧
    ((analyze_step ⟨[], []⟩ "u" "dashboard" "" ["http://b.org", "http://b.org"]
        envT).subs[(⟨[], []⟩ : St).subs.length]?).map (fun sb => sb.urls) =
      some ["http://b.org", "http://b.org"] :=
  ⟨claim9_url_dedup.1 "see http://a.com http://a.com",
   claim9_url_dedup.2.1 ⟨[], []⟩ "u" "dashboard" "" ["http://b.org", "http://b.org"]
     envT (by intro h; exact List.noConfusion h)⟩

/-! ## Counting and lookup facts for the invariant proof -/

theorem countP_set_add {α : Type} (l : List α) (i : ℕ) (a : α) (p : α → Bool)
    (h : i < l.length) :
    (l.set i a).countP p + (if p l[i] then 1 else 0) =
      l.countP p + (if p a then 1 else 0) := by
  induction l generalizing i with
  | nil => simp at h
  | cons x xs ih =>
    cases i with
    | zero =>
      simp only [List.set_cons_zero, List.countP_cons, List.getElem_cons_zero]
      omega
    | succ n =>
      have hn : n < xs.length := by simpa using h
      simp only [List.set_cons_succ, List.countP_cons, List.getElem_cons_succ]
      have := ih n hn
      omega

theorem lookup_eq_none_forall {β : Type} (l : List (String × β)) (a : String)
    (h : l.lookup a = none) : ∀ p ∈ l, p.1 ≠ a := by
  induction l with
  | nil => intro p hp; exact absurd hp (List.not_mem_nil p)
  | cons x xs ih =>
    obtain ⟨k, v⟩ := x
    rw [List.lookup_cons] at h
    intro p hp
    rcases List.mem_cons.mp hp with rfl | hmem
    · intro hka
      subst hka
      simp at h
    · cases hak : a == k with
      | true => rw [hak] at h; exact Option.noConfusion h
      | false => rw [hak] at h; exact ih h p hmem

theorem lookup_isSome_exists {β : Type} (l : List (String × β)) (a : String)
    (h : (l.lookup a).isSome) : ∃ p ∈ l, p.1 = a := by
  induction l with
  | nil => rw [List.lookup_nil] at h; exact absurd h (by simp)
  | cons x xs ih =>
    obtain ⟨k, v⟩ := x
    rw [List.lookup_cons] at h
    cases hak : a == k with
    | true =>
      exact ⟨(k, v), List.mem_cons_self _ _, (beq_iff_eq.mp hak).symm⟩
    | false =>
      rw [hak] at h
      obtain ⟨p, hp, hpk⟩ := ih h
      exact ⟨p, List.mem_cons_of_mem _ hp, hpk⟩

theorem lookup_append_self {β : Type} (l : List (String × β)) (a : String) (v : β)
    (h : l.lookup a = none) : (l ++ [(a, v)]).lookup a = some v := by
  induction l with
  | nil =>
    rw [List.nil_append, List.lookup_cons]
    simp
  | cons x xs ih =>
    obtain ⟨k, w⟩ := x
    rw [List.lookup_cons] at h
    rw [List.cons_append, List.lookup_cons]
    cases hak : a == k with
    | true => rw [hak] at h; exact Option.noConfusion h
    | false =>
      rw [hak] at h
      exact ih h

theorem bumpTotalEntry_key (uid : String) (p : String × URec) :
    (bumpTotalEntry uid p).1 = p.1 := by
  unfold bumpTotalEntry; split <;> rfl

theorem bumpCorrectEntry_key (uid : String) (p : String × URec) :
    (bumpCorrectEntry uid p).1 = p.1 := by
  unfold bumpCorrectEntry; split <;> rfl

theorem bumpFpEntry_key (uid : String) (p : String × URec) :
    (bumpFpEntry uid p).1 = p.1 := by
  unfold bumpFpEntry; split <;> rfl

theorem bumpTotalEntry_total (uid : String) (p : String × URec) :
    (bumpTotalEntry uid p).2.total_reports =
      p.2.total_reports + (if p.1 = uid then 1 else 0) := by
  unfold bumpTotalEntry; split <;> simp [*]

theorem bumpTotalEntry_correct (uid : String) (p : String × URec) :
    (bumpTotalEntry uid p).2.correct_reports = p.2.correct_reports := by
  unfold bumpTotalEntry; split <;> rfl

theorem bumpCorrectEntry_total (uid : String) (p : String × URec) :
    (bumpCorrectEntry uid p).2.total_reports = p.2.total_reports := by
  unfold bumpCorrectEntry; split <;> rfl

theorem bumpCorrectEntry_correct (uid : String) (p : String × URec) :
    (bumpCorrectEntry uid p).2.correct_reports =
      p.2.correct_reports + (if p.1 = uid then 1 else 0) := by
  unfold bumpCorrectEntry; split <;> simp [*]

theorem bumpFpEntry_total (uid : String) (p : String × URec) :
    (bumpFpEntry uid p).2.total_reports = p.2.total_reports := by
  unfold bumpFpEntry; split <;> rfl

theorem bumpFpEntry_correct (uid : String) (p : String × URec) :
    (bumpFpEntry uid p).2.correct_reports = p.2.correct_reports := by
  unfold bumpFpEntry; split <;> rfl

theorem subsFor_append (l : List Sub) (new : Sub) (uid : String) :
    subsFor (l ++ [new]) uid =
      subsFor l uid + (if new.user_id == uid then 1 else 0) := by
  unfold subsFor
  rw [List.countP_append]
  simp [List.countP_cons]

theorem fedFor_append_none (l : List Sub) (new : Sub) (uid : String)
    (hfb : new.feedback = none) :
    fedFor (l ++ [new]) uid = fedFor l uid := by
  unfold fedFor
  rw [List.countP_append]
  simp [List.countP_cons, hfb]

theorem fedFor_le_subsFor (l : List Sub) (uid : String) :
    fedFor l uid ≤ subsFor l uid := by
  unfold fedFor subsFor
  apply List.countP_mono_left
  intro sb _ hsb
  rw [Bool.and_eq_true] at hsb
  exact hsb.1

theorem subsFor_set (l : List Sub) (sid : ℕ) (new : Sub) (hlt : sid < l.length)
    (huid : new.user_id = l[sid].user_id) (uid : String) :
    subsFor (l.set sid new) uid = subsFor l uid := by
  have hc := countP_set_add l sid new (fun sb => sb.user_id == uid) hlt
  rw [huid] at hc
  unfold subsFor
  omega

theorem fedFor_set_flip (l : List Sub) (sid : ℕ) (new : Sub)
    (hlt : sid < l.length) (hold : l[sid].feedback = none)
    (hnew : new.feedback.isSome) (uid : String) :
    fedFor (l.set sid new) uid =
      fedFor l uid + (if new.user_id == uid then 1 else 0) := by
  have hc := countP_set_add l sid new
    (fun sb => sb.user_id == uid && sb.feedback.isSome) hlt
  have e1 : (if (l[sid].user_id == uid && (l[sid].feedback).isSome) = true
      then (1 : ℕ) else 0) = 0 := by
    simp [hold]
  have e2 : (if (new.user_id == uid && new.feedback.isSome) = true
      then (1 : ℕ) else 0) = (if new.user_id == uid then 1 else 0) := by
    simp [hnew]
  unfold fedFor
  omega

/-! ## The invariant is preserved by both endpoints -/

theorem Inv_append_sub (done : List ℕ) (s : St) (uid : String) (newSub : Sub)
    (huid : newSub.user_id = uid) (hfb : newSub.feedback = none)
    (hinv : Inv done s) :
    Inv done ⟨s.subs ++ [newSub],
      if (s.users.lookup uid).isSome then bumpTotal s.users uid
      else s.users ++ [(uid, ⟨uid, 1, 0, 0⟩)]⟩ := by
  obtain ⟨h0, h1, h2, h3⟩ := hinv
  have h3ext : ∀ (i : ℕ) (sb : Sub), (s.subs ++ [newSub])[i]? = some sb →
      sb.feedback.isSome → i ∈ done := by
    intro i sb hs hf
    rw [List.getElem?_append] at hs
    split at hs
    · exact h3 i sb hs hf
    · have h0i : i - s.subs.length = 0 := by
        have hl := (List.getElem?_eq_some_iff.mp hs).1
        simp only [List.length_singleton] at hl
        omega
      rw [h0i] at hs
      have hss : some newSub = some sb := hs
      have hsb : sb = newSub := (Option.some.inj hss).symm
      rw [hsb, hfb] at hf
      exact absurd hf (by simp)
  by_cases hex : (s.users.lookup uid).isSome
  · rw [if_pos hex]
    refine ⟨?_, ?_, ?_, h3ext⟩
    · intro sb hsb
      rcases List.mem_append.mp hsb with hmem | hnew
      · obtain ⟨p, hp, hpk⟩ := h0 sb hmem
        exact ⟨bumpTotalEntry uid p, List.mem_map_of_mem _ hp,
          by rw [bumpTotalEntry_key]; exact hpk⟩
      · obtain ⟨p, hp, hpk⟩ := lookup_isSome_exists s.users uid hex
        refine ⟨bumpTotalEntry uid p, List.mem_map_of_mem _ hp, ?_⟩
        rw [bumpTotalEntry_key, hpk, List.mem_singleton.mp hnew, huid]
    · intro q hq
      obtain ⟨p, hp, hfq⟩ := List.mem_map.mp hq
      subst hfq
      rw [bumpTotalEntry_key, bumpTotalEntry_total, subsFor_append, h1 p hp]
      by_cases hpu : p.1 = uid
      · rw [if_pos hpu, if_pos (by rw [huid]; exact beq_iff_eq.mpr hpu.symm)]
      · rw [if_neg hpu,
          if_neg (by rw [huid]; exact fun hc => hpu (beq_iff_eq.mp hc).symm)]
    · intro q hq
      obtain ⟨p, hp, hfq⟩ := List.mem_map.mp hq
      subst hfq
      rw [bumpTotalEntry_key, bumpTotalEntry_correct,
        fedFor_append_none _ _ _ hfb]
      exact h2 p hp
  · rw [if_neg hex]
    have hnone : s.users.lookup uid = none := by
      cases hL : s.users.lookup uid with
      | none => rfl
      | some v => exact absurd (by rw [hL]; rfl) hex
    have hforall := lookup_eq_none_forall s.users uid hnone
    have hnosub : subsFor s.subs uid = 0 := by
      unfold subsFor
      rw [List.countP_eq_zero]
      intro sb hsb
      obtain ⟨p, hp, hpk⟩ := h0 sb hsb
      intro hbeq
      exact hforall p hp (hpk.trans (beq_iff_eq.mp hbeq))
    refine ⟨?_, ?_, ?_, h3ext⟩
    · intro sb hsb
      rcases List.mem_append.mp hsb with hmem | hnew
      · obtain ⟨p, hp, hpk⟩ := h0 sb hmem
        exact ⟨p, List.mem_append_left _ hp, hpk⟩
      · refine ⟨(uid, ⟨uid, 1, 0, 0⟩),
          List.mem_append_right _ (List.mem_singleton.mpr rfl), ?_⟩
        rw [List.mem_singleton.mp hnew, huid]
    · intro q hq
      rcases List.mem_append.mp hq with hmem | hnew
      · have hcond : ¬ ((newSub.user_id == q.1) = true) := by
          rw [huid]
          intro hc
          exact hforall q hmem (beq_iff_eq.mp hc).symm
        rw [h1 q hmem, subsFor_append, if_neg hcond]
        omega
      · rw [List.mem_singleton.mp hnew]
        rw [show ((uid, (⟨uid, 1, 0, 0⟩ : URec)) : String × URec).1 = uid from rfl]
        rw [subsFor_append, hnosub,
          if_pos (by rw [huid]; exact beq_self_eq_true uid)]
    · intro q hq
      rcases List.mem_append.mp hq with hmem | hnew
      · rw [fedFor_append_none _ _ _ hfb]
        exact h2 q hmem
      · rw [List.mem_singleton.mp hnew]
        exact Nat.zero_le _

theorem Inv_analyze (done : List ℕ) (s : St) (uid src msg : String)
    (urlsIn : List String) (env : Env) (hinv : Inv done s) :
    Inv done (analyze_step s uid src msg urlsIn env) :=
  Inv_append_sub done s uid _ rfl rfl hinv

theorem feedback_users_shape (s : St) (sid : ℕ) (fb : String) (sub : Sub)
    (h : s.subs[sid]? = some sub) :
    (feedback_step s sid fb).users = bumpCorrect s.users sub.user_id ∨
    (feedback_step s sid fb).users = bumpFp s.users sub.user_id ∨
    (feedback_step s sid fb).users = s.users := by
  unfold feedback_step
  rw [h]
  dsimp only
  by_cases c1 : fb = "malicious" ∧ sub.verdict = "malicious"
  · rw [if_pos c1]; exact Or.inl rfl
  · rw [if_neg c1]
    by_cases c2 : fb = "safe" ∧ sub.verdict = "safe"
    · rw [if_pos c2]; exact Or.inl rfl
    · rw [if_neg c2]
      by_cases c3 : fb = "safe" ∧ sub.verdict ≠ "safe"
      · rw [if_pos c3]; exact Or.inr (Or.inl rfl)
      · rw [if_neg c3]; exact Or.inr (Or.inr rfl)

theorem feedback_subs_shape (s : St) (sid : ℕ) (fb : String) (sub : Sub)
    (h : s.subs[sid]? = some sub) :
    (feedback_step s sid fb).subs = s.subs.set sid
      ⟨sub.user_id, sub.source, sub.message, sub.urls, sub.verdict,
       sub.score, sub.reasons, some fb⟩ := by
  unfold feedback_step
  rw [h]

theorem users_prop_of_shape (users users2 : List (String × URec)) (uid : String)
    (h : users2 = bumpCorrect users uid ∨ users2 = bumpFp users uid ∨
      users2 = users) :
    (∀ q ∈ users2, ∃ p ∈ users, q.1 = p.1 ∧
      q.2.total_reports = p.2.total_reports ∧
      q.2.correct_reports ≤ p.2.correct_reports + (if p.1 = uid then 1 else 0)) ∧
    (∀ p ∈ users, ∃ q ∈ users2, q.1 = p.1) := by
  rcases h with rfl | rfl | rfl
  · constructor
    · intro q hq
      obtain ⟨p, hp, hfq⟩ := List.mem_map.mp hq
      subst hfq
      refine ⟨p, hp, bumpCorrectEntry_key _ _, bumpCorrectEntry_total _ _, ?_⟩
      rw [bumpCorrectEntry_correct]
    · intro p hp
      exact ⟨bumpCorrectEntry uid p, List.mem_map_of_mem _ hp,
        bumpCorrectEntry_key _ _⟩
  · constructor
    · intro q hq
      obtain ⟨p, hp, hfq⟩ := List.mem_map.mp hq
      subst hfq
      refine ⟨p, hp, bumpFpEntry_key _ _, bumpFpEntry_total _ _, ?_⟩
      rw [bumpFpEntry_correct]
      exact Nat.le_add_right _ _
    · intro p hp
      exact ⟨bumpFpEntry uid p, List.mem_map_of_mem _ hp, bumpFpEntry_key _ _⟩
  · exact ⟨fun q hq => ⟨q, hq, rfl, rfl, Nat.le_add_right _ _⟩,
      fun p hp => ⟨p, hp, rfl⟩⟩

theorem Inv_feedback (done : List ℕ) (s : St) (sid : ℕ) (fb : String)
    (hinv : Inv done s) (hfresh : sid ∉ done) :
    Inv (sid :: done) (feedback_step s sid fb) := by
  obtain ⟨h0, h1, h2, h3⟩ := hinv
  rcases hsub : s.subs[sid]? with _ | sub
  · rw [feedback_step_of_none s sid fb hsub]
    exact ⟨h0, h1, h2, fun i sb hs hf => List.mem_cons_of_mem _ (h3 i sb hs hf)⟩
  · have hlt : sid < s.subs.length := (List.getElem?_eq_some_iff.mp hsub).1
    have hgetsub : s.subs[sid] = sub := (List.getElem?_eq_some_iff.mp hsub).2
    have hfbnone : sub.feedback = none := by
      cases hfb2 : sub.feedback with
      | none => rfl
      | some x =>
        exact absurd (h3 sid sub hsub (by rw [hfb2]; rfl)) hfresh
    have hsubs2 := feedback_subs_shape s sid fb sub hsub
    have hw := users_prop_of_shape s.users (feedback_step s sid fb).users
      sub.user_id (feedback_users_shape s sid fb sub hsub)
    refine ⟨?_, ?_, ?_, ?_⟩
    · intro sb hsb
      rw [hsubs2] at hsb
      rcases List.mem_or_eq_of_mem_set hsb with hmem | rfl
      · obtain ⟨p, hp, hpk⟩ := h0 sb hmem
        obtain ⟨q, hq, hqk⟩ := hw.2 p hp
        exact ⟨q, hq, by rw [hqk]; exact hpk⟩
      · obtain ⟨p, hp, hpk⟩ := h0 sub (List.getElem?_mem hsub)
        obtain ⟨q, hq, hqk⟩ := hw.2 p hp
        exact ⟨q, hq, by rw [hqk]; exact hpk⟩
    · intro q hq
      obtain ⟨p, hp, hk, htot, _⟩ := hw.1 q hq
      rw [hk, htot, h1 p hp, hsubs2,
        subsFor_set s.subs sid _ hlt (by rw [hgetsub])]
    · intro q hq
      obtain ⟨p, hp, hk, _, hcor⟩ := hw.1 q hq
      rw [hk, hsubs2,
        fedFor_set_flip s.subs sid _ hlt (by rw [hgetsub]; exact hfbnone)
          (by rfl)]
      have hfs := h2 p hp
      have hite : (if p.1 = sub.user_id then (1 : ℕ) else 0) =
          (if ((⟨sub.user_id, sub.source, sub.message, sub.urls, sub.verdict,
              sub.score, sub.reasons, some fb⟩ : Sub).user_id == p.1)
            then 1 else 0) := by
        by_cases hc : p.1 = sub.user_id
        · rw [if_pos hc, if_pos (beq_iff_eq.mpr hc.symm)]
        · rw [if_neg hc, if_neg (fun hb => hc (beq_iff_eq.mp hb).symm)]
      omega
    · intro i sb hs hf
      rw [hsubs2, List.getElem?_set] at hs
      by_cases hii : sid = i
      · rw [← hii]
        exact List.mem_cons_self _ _
      · rw [if_neg hii] at hs
        exact List.mem_cons_of_mem _ (h3 i sb hs hf)

theorem Inv_empty : Inv [] ⟨[], []⟩ :=
  ⟨fun sb h => absurd h (List.not_mem_nil sb),
   fun p h => absurd h (List.not_mem_nil p),
   fun p h => absurd h (List.not_mem_nil p),
   fun i sb h _ => by rw [List.getElem?_nil] at h; exact Option.noConfusion h⟩

theorem Inv_run (ops : List Op) : ∀ (s : St) (done : List ℕ),
    Inv done s → (feedbackIds ops).Nodup →
    (∀ j ∈ feedbackIds ops, j ∉ done) →
    ∃ done2, Inv done2 (ops.foldl apply_op s) := by
  induction ops with
  | nil => exact fun s done hinv _ _ => ⟨done, hinv⟩
  | cons op rest ih =>
    intro s done hinv hnd hdisj
    cases op with
    | analyze uid src msg urls env =>
      exact ih (analyze_step s uid src msg urls env) done
        (Inv_analyze done s uid src msg urls env hinv) hnd hdisj
    | feedback sid fb =>
      have hnd2 : feedbackIds (Op.feedback sid fb :: rest) =
          sid :: feedbackIds rest := rfl
      rw [hnd2] at hnd hdisj
      have hpair := List.nodup_cons.mp hnd
      refine ih (feedback_step s sid fb) (sid :: done)
        (Inv_feedback done s sid fb hinv
          (hdisj sid (List.mem_cons_self _ _))) hpair.2 ?_
      intro j hj hjm
      rcases List.mem_cons.mp hjm with rfl | hjd
      · exact hpair.1 hj
      · exact hdisj j (List.mem_cons_of_mem _ hj) hjd

/-- C2 counterexample: the claim as stated is false — a reachable state
violates `total_reports ≥ correct_reports`.  One analyze call (verdict
"safe") followed by two identical "safe" feedback calls on submission 0
leaves user "u" with total_reports = 1 but correct_reports = 2, because
the reconciliation is re-applied on repeated feedback. -/
theorem claim2_cex :
    ¬ (∀ p ∈ (run [Op.analyze "u" "dashboard" "" [] envT,
        Op.feedback 0 "safe", Op.feedback 0 "safe"]).users,
        p.2.correct_reports ≤ p.2.total_reports) := by
  intro hall
  have hkb : kwBlock "" = ([], 0) := by
    unfold kwBlock
    rw [show kw_count "" = 0 from by decide]
    simp
  have hv : (analyze_payload envT "" []).1 = "safe" := by
    rw [analyze_payload_nil_verdict, hkb]
    norm_num
  have hsub1 : (analyze_step ⟨[], []⟩ "u" "dashboard" "" [] envT).subs[0]? =
      some ⟨"u", "dashboard", "", [], (analyze_payload envT "" []).1,
        (analyze_payload envT "" []).2.1, (analyze_payload envT "" []).2.2,
        none⟩ := rfl
  rw [hv] at hsub1
  have husers1 : (analyze_step ⟨[], []⟩ "u" "dashboard" "" [] envT).users[0]? =
      some ("u", ⟨"u", 1, 0, 0⟩) := rfl
  have h1 := feedback_step_users _ 0 "safe" _ hsub1 0 _ husers1
  simp at h1
  have hsub2 := feedback_step_subs
    (analyze_step ⟨[], []⟩ "u" "dashboard" "" [] envT) 0 "safe" _ hsub1
  have h2 := feedback_step_users _ 0 "safe" _ hsub2 0 _ h1
  simp at h2
  have hmem : ("u", (⟨"u", 1, 2, 0⟩ : URec)) ∈
      (run [Op.analyze "u" "dashboard" "" [] envT, Op.feedback 0 "safe",
        Op.feedback 0 "safe"]).users := List.getElem?_mem h2
  have hle := hall _ hmem
  simp at hle

/-- C2 (amended): for states reachable by traces in which no submission
receives feedback more than once, every user record satisfies
`total_reports ≥ correct_reports` (counters are naturals, hence
non-negative); and a user created lazily on first submission starts with
total_reports = 1 and all other counters 0 (display name defaulting to
the user id). -/
theorem claim2_user_invariant :
    (∀ ops : List Op, (feedbackIds ops).Nodup →
      ∀ p ∈ (run ops).users, p.2.correct_reports ≤ p.2.total_reports) ∧
    (∀ (s : St) (uid src msg : String) (urlsIn : List String) (env : Env),
      s.users.lookup uid = none →
      (analyze_step s uid src msg urlsIn env).users.lookup uid =
        some ⟨uid, 1, 0, 0⟩) := by
  constructor
  · intro ops hnd p hp
    obtain ⟨done2, hinv⟩ := Inv_run ops ⟨[], []⟩ [] Inv_empty hnd
      (fun j _ hj => List.not_mem_nil j hj)
    rw [hinv.2.1 p hp]
    exact le_trans (hinv.2.2.1 p hp) (fedFor_le_subsFor _ _)
  · intro s uid src msg urlsIn env hnone
    show (if (s.users.lookup uid).isSome then bumpTotal s.users uid
      else s.users ++ [(uid, ⟨uid, 1, 0, 0⟩)]).lookup uid = some ⟨uid, 1, 0, 0⟩
    rw [if_neg (by rw [hnone]; simp)]
    exact lookup_append_self s.users uid _ hnone

/-- C2 witness: the invariant holds after one concrete analyze call, and
lazy creation yields the record (1, 0, 0) on a concrete empty store. -/
theorem claim2_witness :
    (∀ p ∈ (run [Op.analyze "u" "dashboard" "" [] envT]).users,
      p.2.correct_reports ≤ p.2.total_reports) ∧
    (analyze_step ⟨[], []⟩ "v" "dashboard" "" [] envT).users.lookup "v" =
      some ⟨"v", 1, 0, 0⟩ :=
  ⟨claim2_user_invariant.1 [Op.analyze "u" "dashboard" "" [] envT]
      List.nodup_nil,
   claim2_user_invariant.2 ⟨[], []⟩ "v" "dashboard" "" [] envT rfl⟩

/-- C6 witness: the keyword-rule theorem at the concrete message
"Verify your bank account" (keyword count 4: verify, verify your, bank,
account). -/
theorem claim6_witness :
    SUSPICIOUS_KEYWORDS.length = 14 ∧
    kw_count "Verify your bank account" = SUSPICIOUS_KEYWORDS.countP
      (fun k => decide (k.data <:+: "Verify your bank account".data.map
        Char.toLower)) ∧
    (analyze_payload envT "Verify your bank account" []).2.1 =
      min (0.2 * (kw_count "Verify your bank account" : ℚ)) 0.4 ∧
    (analyze_payload envT "Verify your bank account" []).2.2 =
      (if 1 ≤ kw_count "Verify your bank account" then
        ["suspicious keywords (" ++
          toString (kw_count "Verify your bank account") ++ ")"]
       else []) ∧
    (min (0.2 * (kw_count "Verify your bank account" : ℚ)) 0.4 = 0.4 ↔
      2 ≤ kw_count "Verify your bank account") :=
  claim6_keyword_rule envT "Verify your bank account"

/-- C8 witness: the ordering equation, redirect/fetch exclusivity and the
certificate-membership equivalence at a concrete environment and URL. -/
theorem claim8_witness :
    ((analyze_payload envT "m" ["http://a.com"]).2.2 =
      (kwBlock "m").1 ++
        ((["http://a.com"] : List String).map (urlBlock envT)).flatten) ∧
    ¬ ("could not fetch URL (network or blocked)" ∈ urlBlock envT "http://a.com" ∧
        ∃ n : ℕ, (toString n ++ " redirects (suspicious)") ∈
          urlBlock envT "http://a.com") ∧
    ("ssl certificate check failed" ∈ urlBlock envT "http://a.com" ↔
      ¬ check_ssl_certificate envT (probedDomain envT "http://a.com")) :=
  ⟨(claim8_reasons_order envT "m" ["http://a.com"]).1,
   (claim8_reasons_order envT "m" ["http://a.com"]).2.1 "http://a.com",
   (claim8_reasons_order envT "m" ["http://a.com"]).2.2 "http://a.com"⟩

/-- C10 witness: the certificate-rule equivalence at a concrete
environment and URL. -/
theorem claim10_witness :
    ((analyze_payload envT "" ["http://a.com"]).2.2 =
      urlBlock envT "http://a.com") ∧
    ("ssl certificate check failed" ∈ urlBlock envT "http://a.com" ↔
      (envT.cert_fetch (probedDomain envT "http://a.com") = none ∨
        ∃ code : ℕ,
          envT.cert_fetch (probedDomain envT "http://a.com") = some code ∧
            500 ≤ code)) :=
  claim10_cert_rule envT "http://a.com"

end PhishGuard
